import Mathlib

/-!
Verification development for the RailScraper extraction pipeline
(src/RailScraper.py). The Python source is shallowly embedded: text is
a list of characters, the time regex is modelled as an explicit scanner,
per-span extraction, trip pairing, deduplication, the per-route scrape
(with its exception handling) and the all-routes orchestration are
translated into executable Lean functions.
-/

namespace RailScraper

/-- Text is modelled as a list of characters. -/
abbrev Text := List Char

/-- Convert a string literal to the character-list representation. -/
def txt (s : String) : Text := s.data

/-! ### The time pattern

The source compiles the regular expression
regex (raw): backslash-b ([0-2]?[0-9]):([0-5][0-9]) backslash-b
(src/RailScraper.py line 136) and uses one `search` per span
(line 140-144).  We model the scanner explicitly. -/

/-- A regex word character (underlying the word-boundary assertion):
letters, digits, underscore.  The scraped pages are ASCII, so the
ASCII model of the word class suffices. -/
def isWordChar (c : Char) : Bool := c.isAlphanum || c == '_'

/-- Character class [0-9]. -/
def isDigitC (c : Char) : Bool := decide ('0' ≤ c ∧ c ≤ '9')

/-- Character class [0-2] (the optional leading hour digit). -/
def isHourLead (c : Char) : Bool := decide ('0' ≤ c ∧ c ≤ '2')

/-- Character class [0-5] (the leading minute digit). -/
def isMinLead (c : Char) : Bool := decide ('0' ≤ c ∧ c ≤ '5')

/-- Word boundary before the match: start of string, or previous
character not a word character (the first matched character is always
a digit, hence a word character). -/
def isBoundaryBefore : Option Char → Bool
  | none => true
  | some c => !isWordChar c

/-- Word boundary after the match: end of string, or next character not
a word character (the last matched character is always a digit). -/
def boundaryAfter : Text → Bool
  | [] => true
  | c :: _ => !isWordChar c

/-- Try the two-digit-hour branch of the pattern at the current
position: [0-2][0-9]:[0-5][0-9] followed by a word boundary. -/
def matchTwo : Text → Option Text
  | c1 :: c2 :: c3 :: c4 :: c5 :: rest =>
      if isHourLead c1 && isDigitC c2 && (c3 == ':') && isMinLead c4 &&
          isDigitC c5 && boundaryAfter rest
      then some [c1, c2, c3, c4, c5] else none
  | _ => none

/-- Try the one-digit-hour branch (the optional [0-2] not taken):
[0-9]:[0-5][0-9] followed by a word boundary. -/
def matchOne : Text → Option Text
  | c1 :: c2 :: c3 :: c4 :: rest =>
      if isDigitC c1 && (c2 == ':') && isMinLead c3 && isDigitC c4 &&
          boundaryAfter rest
      then some [c1, c2, c3, c4] else none
  | _ => none

/-- Attempt a match anchored at the current position, given the
character immediately before it.  The greedy optional [0-2] means the
two-digit branch is tried first, with backtracking to the one-digit
branch. -/
def matchAt (prev : Option Char) (l : Text) : Option Text :=
  if isBoundaryBefore prev then
    match matchTwo l with
    | some t => some t
    | none => matchOne l
  else none

/-- Scan left to right for the first position at which the pattern
matches, carrying the previous character for the boundary test. -/
def searchFrom (prev : Option Char) : Text → Option Text
  | [] => none
  | c :: rest =>
      match matchAt prev (c :: rest) with
      | some t => some t
      | none => searchFrom (some c) rest

/-- Model of time_pattern.search(s).group(): the leftmost match of the
time pattern in s, or none. -/
def time_pattern_search (s : Text) : Option Text := searchFrom none s

/-- The match attempt anchored at absolute position i of s, relative to
a character prev preceding the whole of s (used to state leftmostness
of the search). -/
def timeMatchFrom (prev : Option Char) (s : Text) (i : Nat) : Option Text :=
  matchAt (match i with | 0 => prev | Nat.succ j => s.get? j) (s.drop i)

/-- The match attempt anchored at absolute position i of a standalone
string s. -/
def timeMatchAt (s : Text) (i : Nat) : Option Text := timeMatchFrom none s i

/-! ### Extraction, pairing, deduplication (src/RailScraper.py 138-163) -/

/-- A trip container is modelled by the texts of its span
sub-elements. -/
abbrev Container := List Text

/-- Model of the list comprehension building span_times: one search per
span, keeping the matched group of each span whose text contains a
match (src/RailScraper.py lines 140-144). -/
def span_times (spans : Container) : List Text :=
  spans.filterMap time_pattern_search

/-- A departure/arrival pair as stored in the timetable. -/
structure TimePair where
  departure : Text
  arrival : Text
deriving DecidableEq

/-- The per-container step of the extraction loop (src/RailScraper.py
lines 146-154): if at least two span times were found, the first is the
departure and the second the arrival; otherwise the container
contributes nothing. -/
def containerTrips (container : Container) : List TimePair :=
  match span_times container with
  | d :: a :: _ => [{ departure := d, arrival := a }]
  | _ => []

/-- The seen-set deduplication loop (src/RailScraper.py lines 156-163),
generic in the element type; the set is modelled by a list queried for
membership. -/
def dedupFirstAux {α : Type} [DecidableEq α] (seen : List α) : List α → List α
  | [] => []
  | x :: xs =>
      if x ∈ seen then dedupFirstAux seen xs
      else x :: dedupFirstAux (x :: seen) xs

/-- Deduplication with an initially empty seen set. -/
def dedupFirst {α : Type} [DecidableEq α] (l : List α) : List α :=
  dedupFirstAux [] l

/-- The unique_timetable computed at src/RailScraper.py lines 156-163. -/
def unique_timetable (timetable : List TimePair) : List TimePair :=
  dedupFirst timetable

/-- Modelled from the spec: the Deduplicator contract of spec section
4.3 in its own words — keep only the first occurrence of each distinct
value, dropping every later duplicate, preserving order.  Stated as a
second definition to be compared with the seen-set loop of the
source. -/
def firstOccurs {α : Type} [DecidableEq α] : List α → List α
  | [] => []
  | x :: xs => x :: firstOccurs (xs.filter (fun y => decide (y ≠ x)))
termination_by l => l.length
decreasing_by
  simp only [List.length_cons]
  exact Nat.lt_succ_of_le (List.length_filter_le _ _)

/-! ### Token shape predicates -/

/-- Shape of a fully normalized token: two-digit hour, colon, two-digit
minute (the regex anchored form [0-9][0-9]:[0-9][0-9]). -/
def isNormalizedTime : Text → Bool
  | [h1, h2, c, m1, m2] =>
      isDigitC h1 && isDigitC h2 && (c == ':') && isDigitC m1 && isDigitC m2
  | _ => false

/-- Shape of a raw matched token: exactly what the pattern
[0-2]?[0-9]:[0-5][0-9] can produce, with a one- or two-digit hour. -/
def isRawTime : Text → Bool
  | [h1, c, m1, m2] =>
      isDigitC h1 && (c == ':') && isMinLead m1 && isDigitC m2
  | [h1, h2, c, m1, m2] =>
      isHourLead h1 && isDigitC h2 && (c == ':') && isMinLead m1 && isDigitC m2
  | _ => false

/-! ### Route scraping (src/RailScraper.py 102-169) -/

/-- A route's configuration entry (one element of config["routes"]). -/
structure RouteConfig where
  name : Text
  url_template : Text
  departure_station : Text
  arrival_station : Text
  trip_container : Text
deriving DecidableEq

/-- The per-route value stored in the snapshot's routes mapping
(src/RailScraper.py lines 180-184). -/
structure RouteResult where
  departure_station : Text
  arrival_station : Text
  timetable : List TimePair
deriving DecidableEq

/-- Rendered page markup, modelled as the document's fragments tagged
with the selector they answer to; each fragment carries its span
texts. -/
abbrev Markup := List (Text × Container)

/-- Model of soup.select(selector) (src/RailScraper.py line 130): all
fragments of the markup matching the selector, in document order. -/
def selectFragments (soup : Markup) (sel : Text) : List Container :=
  (soup.filter (fun frag => decide (frag.fst = sel))).map Prod.snd

/-- The state of the rendered page when scraping inspects it: the
markup currently present, and whether the awaited trip-container
selector appeared in the DOM within the bounded wait. -/
structure RenderState where
  pageSource : Markup
  selectorAppeared : Bool
deriving DecidableEq

/-- Exceptions that page acquisition can raise outside the caught
timeout (network failure, driver failure, ...). -/
inductive ScrapeError
  | fetchError
  | webDriverError
deriving DecidableEq

/-- Outcome of navigating to a route's URL: either an exception was
raised, or the page loaded and scraping proceeds on a render state. -/
inductive FetchOutcome
  | raised (e : ScrapeError)
  | loaded (st : RenderState)
deriving DecidableEq

/-- Model of the WebDriverWait call (src/RailScraper.py lines 119-121):
succeeds when the selector appeared within the timeout, raises
TimeoutException otherwise. -/
def waitForContainers (appeared : Bool) : Except Unit Unit :=
  if appeared then Except.ok () else Except.error ()

/-- The wait with its surrounding try/except (src/RailScraper.py lines
117-127): on success proceed with the page source, and on
TimeoutException log a warning and proceed with the page source
anyway. -/
def acquireMarkup (st : RenderState) : Markup :=
  match waitForContainers st.selectorAppeared with
  | Except.ok _ => st.pageSource
  | Except.error _ => st.pageSource

/-- Model of scrape_route (src/RailScraper.py lines 102-169): on any
exception during acquisition, the outer except returns the empty list;
otherwise select the trip containers, extract and pair the span times
per container, and deduplicate. -/
def scrape_route (route : RouteConfig) (outcome : FetchOutcome) : List TimePair :=
  match outcome with
  | FetchOutcome.raised _ => []
  | FetchOutcome.loaded st =>
      let soup := acquireMarkup st
      let trip_containers := selectFragments soup route.trip_container
      unique_timetable (trip_containers.flatMap containerTrips)

/-- The snapshot value built for one route by scrape_all_routes, given
an environment assigning each route its fetch outcome. -/
def mkRouteResult (env : RouteConfig → FetchOutcome) (route : RouteConfig) :
    RouteResult :=
  { departure_station := route.departure_station,
    arrival_station := route.arrival_station,
    timetable := scrape_route route (env route) }

/-- Python dict assignment d[k] = v: an existing key keeps its position
and gets the new value, a new key is appended. -/
def insertRoute (m : List (Text × RouteResult)) (k : Text) (v : RouteResult) :
    List (Text × RouteResult) :=
  match m with
  | [] => [(k, v)]
  | (k2, v2) :: rest =>
      if k2 = k then (k, v) :: rest else (k2, v2) :: insertRoute rest k v

/-- Python dict lookup d[k] on the insertion-ordered association
list. -/
def lookupRoute (m : List (Text × RouteResult)) (k : Text) : Option RouteResult :=
  match m with
  | [] => none
  | (k2, v) :: rest => if k2 = k then some v else lookupRoute rest k

/-- Model of scrape_all_routes (src/RailScraper.py lines 171-186): the
routes mapping of the snapshot, built by iterating the configured
routes in order and assigning all_data["routes"][route["name"]]. -/
def scrape_all_routes (routes : List RouteConfig)
    (env : RouteConfig → FetchOutcome) : List (Text × RouteResult) :=
  routes.foldl (fun m route => insertRoute m route.name (mkRouteResult env route)) []

/-- The last element of the route list carrying the given name, if
any (the route whose dict assignment wins). -/
def lastNamed : List RouteConfig → Text → Option RouteConfig
  | [], _ => none
  | r :: rs, n =>
      match lastNamed rs n with
      | some r2 => some r2
      | none => if r.name = n then some r else none

/-! ### Configuration loading (src/RailScraper.py 61-95) -/

/-- The configuration record (routes plus output file and scrape
time). -/
structure Config where
  routes : List RouteConfig
  output_file : Text
  scrape_time : Text
deriving DecidableEq

/-- The default_config literal of src/RailScraper.py lines 63-86. -/
def default_config : Config :=
  { routes :=
      [ { name := txt "Laagri to Tallinn",
          url_template := txt "https://elron.pilet.ee/et/otsing/Laagri/Tallinn/{date}",
          departure_station := txt "Laagri",
          arrival_station := txt "Tallinn",
          trip_container := txt ".trip-summary__timespan" },
        { name := txt "Tallinn to Laagri",
          url_template := txt "https://elron.pilet.ee/et/otsing/Tallinn/Laagri/{date}",
          departure_station := txt "Tallinn",
          arrival_station := txt "Laagri",
          trip_container := txt ".trip-summary__timespan" } ],
    output_file := txt "timetable.html",
    scrape_time := txt "06:00" }

/-- The states a configuration file can be in: absent, present but not
valid JSON, or present and parsing to a configuration. -/
inductive ConfigFile
  | missing
  | invalid
  | valid (c : Config)

/-- The exceptions open/json.load can raise. -/
inductive PyErr
  | fileNotFound
  | jsonDecode
deriving DecidableEq

/-- Model of open(config_file) followed by json.load: a missing file
raises FileNotFoundError, malformed content raises JSONDecodeError, and
valid content parses. -/
def openAndParse : ConfigFile → Except PyErr Config
  | ConfigFile.missing => Except.error PyErr.fileNotFound
  | ConfigFile.invalid => Except.error PyErr.jsonDecode
  | ConfigFile.valid c => Except.ok c

/-- Model of load_config (src/RailScraper.py lines 61-95): the try
block returns the parsed configuration; only FileNotFoundError is
caught, in which case the defaults are written (the Boolean records the
write) and returned; any other exception propagates.  The result pairs
the returned configuration with whether the default file was
written. -/
def load_config (f : ConfigFile) : Except PyErr (Config × Bool) :=
  match openAndParse f with
  | Except.ok c => Except.ok (c, false)
  | Except.error PyErr.fileNotFound => Except.ok (default_config, true)
  | Except.error e => Except.error e

/-! ### Concrete fixtures used to instantiate the theorems -/

/-- A concrete route (fixture). -/
def routeA : RouteConfig :=
  { name := txt "R1", url_template := txt "u1/{date}",
    departure_station := txt "A", arrival_station := txt "B",
    trip_container := txt ".trip" }

/-- A second concrete route with a distinct name (fixture). -/
def routeB : RouteConfig :=
  { name := txt "R2", url_template := txt "u2/{date}",
    departure_station := txt "C", arrival_station := txt "D",
    trip_container := txt ".trip" }

/-- A third concrete route with a distinct name (fixture). -/
def routeC : RouteConfig :=
  { name := txt "R3", url_template := txt "u3/{date}",
    departure_station := txt "E", arrival_station := txt "F",
    trip_container := txt ".trip" }

/-- The three distinct-name routes (fixture). -/
def threeRoutes : List RouteConfig := [routeA, routeB, routeC]

/-- Two routes sharing the name R1 (fixture). -/
def dupRoutes : List RouteConfig :=
  [routeA,
   { name := txt "R1", url_template := txt "u4/{date}",
     departure_station := txt "X", arrival_station := txt "Y",
     trip_container := txt ".trip" }]

/-- A markup with one trip fragment holding two times (fixture). -/
def pageOne : Markup := [(txt ".trip", [txt "dep 7:05", txt "arr 8:45"])]

/-- An environment in which every route loads pageOne (fixture). -/
def envOk : RouteConfig → FetchOutcome :=
  fun _ => FetchOutcome.loaded { pageSource := pageOne, selectorAppeared := true }

/-- An environment identical to envOk except that routeB's acquisition
raises a fetch error (fixture). -/
def envFailB : RouteConfig → FetchOutcome :=
  fun r => if r = routeB then FetchOutcome.raised ScrapeError.fetchError else envOk r

/-- A render state whose awaited selector never appeared and whose
markup has no fragment answering to ".trip" (fixture). -/
def timedOutState : RenderState :=
  { pageSource := [(txt ".other", [txt "no times here"])], selectorAppeared := false }

/-! ### Lemmas about the time pattern -/

theorem matchTwo_eq_some {l t : Text} (h : matchTwo l = some t) :
    isRawTime t = true ∧ ∃ rest, l = t ++ rest := by
  rcases l with _ | ⟨c1, _ | ⟨c2, _ | ⟨c3, _ | ⟨c4, _ | ⟨c5, rest⟩⟩⟩⟩⟩ <;>
    first
    | exact Option.noConfusion h
    | · simp only [matchTwo, Option.ite_none_right_eq_some, Option.some.injEq,
          Bool.and_eq_true, beq_iff_eq] at h
        obtain ⟨⟨⟨⟨⟨⟨h1, h2⟩, h3⟩, h4⟩, h5⟩, h6⟩, ht⟩ := h
        subst ht
        subst h3
        refine ⟨?_, rest, rfl⟩
        simp [isRawTime, h1, h2, h4, h5]

theorem matchOne_eq_some {l t : Text} (h : matchOne l = some t) :
    isRawTime t = true ∧ ∃ rest, l = t ++ rest := by
  rcases l with _ | ⟨c1, _ | ⟨c2, _ | ⟨c3, _ | ⟨c4, rest⟩⟩⟩⟩ <;>
    first
    | exact Option.noConfusion h
    | · simp only [matchOne, Option.ite_none_right_eq_some, Option.some.injEq,
          Bool.and_eq_true, beq_iff_eq] at h
        obtain ⟨⟨⟨⟨⟨h1, h2⟩, h3⟩, h4⟩, h5⟩, ht⟩ := h
        subst ht
        subst h2
        refine ⟨?_, rest, rfl⟩
        simp [isRawTime, h1, h3, h4]

theorem matchAt_eq_some {prev : Option Char} {l t : Text}
    (h : matchAt prev l = some t) :
    isRawTime t = true ∧ ∃ rest, l = t ++ rest := by
  unfold matchAt at h
  split at h
  · cases h2 : matchTwo l with
    | some t2 =>
        rw [h2] at h
        simp only [] at h
        cases h
        exact matchTwo_eq_some h2
    | none =>
        rw [h2] at h
        simp only [] at h
        exact matchOne_eq_some h
  · exact absurd h (by simp)

theorem searchFrom_eq_some :
    ∀ {s : Text} {prev : Option Char} {t : Text}, searchFrom prev s = some t →
      isRawTime t = true ∧ ∃ pre suf, s = pre ++ t ++ suf := by
  intro s
  induction s with
  | nil => intro prev t h; simp [searchFrom] at h
  | cons c rest ih =>
      intro prev t h
      unfold searchFrom at h
      cases hm : matchAt prev (c :: rest) with
      | some t2 =>
          rw [hm] at h
          simp only [] at h
          cases h
          obtain ⟨hshape, rest2, hrest⟩ := matchAt_eq_some hm
          exact ⟨hshape, [], rest2, by simpa using hrest⟩
      | none =>
          rw [hm] at h
          simp only [] at h
          obtain ⟨hshape, pre, suf, hps⟩ := ih h
          exact ⟨hshape, c :: pre, suf, by simp [hps]⟩

theorem timeMatchFrom_succ {prev : Option Char} {c : Char} {rest : Text}
    {i : Nat} :
    timeMatchFrom prev (c :: rest) (i + 1) = timeMatchFrom (some c) rest i := by
  unfold timeMatchFrom
  cases i with
  | zero => rfl
  | succ j => rfl

theorem timeMatchFrom_zero {prev : Option Char} {s : Text} :
    timeMatchFrom prev s 0 = matchAt prev s := rfl

theorem searchFrom_leftmost :
    ∀ {s : Text} {prev : Option Char} {t : Text}, searchFrom prev s = some t →
      ∃ i, timeMatchFrom prev s i = some t ∧
        ∀ j, j < i → timeMatchFrom prev s j = none := by
  intro s
  induction s with
  | nil => intro prev t h; simp [searchFrom] at h
  | cons c rest ih =>
      intro prev t h
      unfold searchFrom at h
      cases hm : matchAt prev (c :: rest) with
      | some t2 =>
          rw [hm] at h
          simp only [] at h
          cases h
          exact ⟨0, hm, fun j hj => absurd hj (Nat.not_lt_zero j)⟩
      | none =>
          rw [hm] at h
          simp only [] at h
          obtain ⟨i, hi, hlt⟩ := ih h
          refine ⟨i + 1, by rw [timeMatchFrom_succ]; exact hi, ?_⟩
          intro j hj
          cases j with
          | zero => exact hm
          | succ k =>
              rw [timeMatchFrom_succ]
              exact hlt k (by omega)

/-! ### Lemmas about the deduplication loop -/

theorem dedupFirstAux_nil_eq {α : Type} [DecidableEq α] (seen : List α) :
    dedupFirstAux seen ([] : List α) = [] := rfl

theorem dedupFirstAux_cons_eq {α : Type} [DecidableEq α] (seen : List α)
    (x : α) (xs : List α) :
    dedupFirstAux seen (x :: xs) =
      if x ∈ seen then dedupFirstAux seen xs
      else x :: dedupFirstAux (x :: seen) xs := rfl

theorem firstOccurs_nil {α : Type} [DecidableEq α] :
    firstOccurs ([] : List α) = [] := by
  rw [firstOccurs]

theorem firstOccurs_cons {α : Type} [DecidableEq α] (x : α) (xs : List α) :
    firstOccurs (x :: xs) = x :: firstOccurs (xs.filter (fun y => decide (y ≠ x))) := by
  rw [firstOccurs]

theorem mem_dedupFirstAux {α : Type} [DecidableEq α] (a : α) :
    ∀ (l seen : List α), a ∈ dedupFirstAux seen l ↔ a ∈ l ∧ a ∉ seen := by
  intro l
  induction l with
  | nil => intro seen; simp [dedupFirstAux]
  | cons x xs ih =>
      intro seen
      unfold dedupFirstAux
      by_cases hx : x ∈ seen
      · rw [if_pos hx, ih seen]
        constructor
        · rintro ⟨ha, hs⟩
          exact ⟨List.mem_cons_of_mem _ ha, hs⟩
        · rintro ⟨ha, hs⟩
          rcases List.mem_cons.mp ha with rfl | ha2
          · exact absurd hx hs
          · exact ⟨ha2, hs⟩
      · rw [if_neg hx]
        constructor
        · intro hmem
          rcases List.mem_cons.mp hmem with rfl | h2
          · exact ⟨List.mem_cons_self _ _, hx⟩
          · have h3 := (ih (x :: seen)).mp h2
            exact ⟨List.mem_cons_of_mem _ h3.1,
              fun hs => h3.2 (List.mem_cons_of_mem _ hs)⟩
        · rintro ⟨ha, hs⟩
          rcases List.mem_cons.mp ha with rfl | h2
          · exact List.mem_cons_self _ _
          · by_cases hax : a = x
            · subst hax; exact List.mem_cons_self _ _
            · refine List.mem_cons_of_mem _ ((ih (x :: seen)).mpr ⟨h2, ?_⟩)
              simp [hax, hs]

theorem dedupFirstAux_sublist {α : Type} [DecidableEq α] :
    ∀ (l seen : List α), List.Sublist (dedupFirstAux seen l) l := by
  intro l
  induction l with
  | nil => intro seen; simp [dedupFirstAux]
  | cons x xs ih =>
      intro seen
      unfold dedupFirstAux
      by_cases hx : x ∈ seen
      · rw [if_pos hx]; exact (ih seen).cons x
      · rw [if_neg hx]; exact (ih (x :: seen)).cons₂ x

theorem dedupFirstAux_nodup {α : Type} [DecidableEq α] :
    ∀ (l seen : List α), (dedupFirstAux seen l).Nodup := by
  intro l
  induction l with
  | nil => intro seen; simp [dedupFirstAux]
  | cons x xs ih =>
      intro seen
      unfold dedupFirstAux
      by_cases hx : x ∈ seen
      · rw [if_pos hx]; exact ih seen
      · rw [if_neg hx]
        refine List.nodup_cons.mpr ⟨?_, ih (x :: seen)⟩
        intro hmem
        exact ((mem_dedupFirstAux x xs (x :: seen)).mp hmem).2
          (List.mem_cons_self _ _)

theorem dedupFirstAux_congr {α : Type} [DecidableEq α] :
    ∀ (l s1 s2 : List α), (∀ a, a ∈ s1 ↔ a ∈ s2) →
      dedupFirstAux s1 l = dedupFirstAux s2 l := by
  intro l
  induction l with
  | nil => intro s1 s2 _; rfl
  | cons x xs ih =>
      intro s1 s2 hequiv
      unfold dedupFirstAux
      by_cases hx : x ∈ s1
      · rw [if_pos hx, if_pos ((hequiv x).mp hx)]
        exact ih s1 s2 hequiv
      · rw [if_neg hx, if_neg (fun h2 => hx ((hequiv x).mpr h2))]
        congr 1
        refine ih (x :: s1) (x :: s2) ?_
        intro a
        simp [hequiv a]

theorem dedupFirstAux_cons {α : Type} [DecidableEq α] :
    ∀ (l seen : List α) (x : α),
      dedupFirstAux (x :: seen) l =
        dedupFirstAux seen (l.filter (fun y => decide (y ≠ x))) := by
  intro l
  induction l with
  | nil => intro seen x; rfl
  | cons y ys ih =>
      intro seen x
      by_cases hyx : y = x
      · subst hyx
        rw [show (y :: ys).filter (fun z => decide (z ≠ y)) =
            ys.filter (fun z => decide (z ≠ y)) by simp]
        rw [dedupFirstAux_cons_eq, if_pos (List.mem_cons_self _ _)]
        exact ih seen y
      · rw [show (y :: ys).filter (fun z => decide (z ≠ x)) =
            y :: ys.filter (fun z => decide (z ≠ x)) by simp [hyx]]
        rw [dedupFirstAux_cons_eq, dedupFirstAux_cons_eq]
        by_cases hys : y ∈ seen
        · rw [if_pos (List.mem_cons_of_mem _ hys), if_pos hys]
          exact ih seen x
        · rw [if_neg (by simp [hyx, hys]), if_neg hys]
          congr 1

          calc dedupFirstAux (y :: x :: seen) ys
              = dedupFirstAux (x :: y :: seen) ys := by
                refine dedupFirstAux_congr ys _ _ ?_
                intro a
                constructor <;> (intro hmem; simp only [List.mem_cons] at hmem ⊢; tauto)
            _ = dedupFirstAux (y :: seen) (ys.filter (fun z => decide (z ≠ x))) :=
                ih (y :: seen) x

theorem dedupFirst_eq_firstOccurs_aux {α : Type} [DecidableEq α] :
    ∀ (n : Nat) (l : List α), l.length ≤ n →
      dedupFirstAux [] l = firstOccurs l := by
  intro n
  induction n with
  | zero =>
      intro l hl
      rw [List.length_eq_zero.mp (Nat.le_zero.mp hl)]
      rw [dedupFirstAux_nil_eq, firstOccurs_nil]
  | succ n ih =>
      intro l hl
      cases l with
      | nil => rw [dedupFirstAux_nil_eq, firstOccurs_nil]
      | cons x xs =>
          rw [firstOccurs_cons]
          rw [dedupFirstAux_cons_eq, if_neg (List.not_mem_nil x)]
          congr 1
          rw [dedupFirstAux_cons xs [] x]
          refine ih _ (le_trans (List.length_filter_le _ _) ?_)
          simpa using Nat.le_of_succ_le_succ hl

theorem dedupFirst_eq_firstOccurs {α : Type} [DecidableEq α] (l : List α) :
    dedupFirst l = firstOccurs l :=
  dedupFirst_eq_firstOccurs_aux l.length l (Nat.le_refl _)

theorem dedupFirstAux_of_nodup {α : Type} [DecidableEq α] :
    ∀ (l seen : List α), l.Nodup → (∀ x ∈ l, x ∉ seen) →
      dedupFirstAux seen l = l := by
  intro l
  induction l with
  | nil => intro seen _ _; rfl
  | cons x xs ih =>
      intro seen hnd hsn
      unfold dedupFirstAux
      rw [if_neg (hsn x (List.mem_cons_self _ _))]
      congr 1
      refine ih (x :: seen) (List.nodup_cons.mp hnd).2 ?_
      intro y hy
      simp only [List.mem_cons, not_or]
      refine ⟨?_, hsn y (List.mem_cons_of_mem _ hy)⟩
      intro hyx
      subst hyx
      exact (List.nodup_cons.mp hnd).1 hy

theorem dedupFirst_of_nodup {α : Type} [DecidableEq α] (l : List α)
    (h : l.Nodup) : dedupFirst l = l :=
  dedupFirstAux_of_nodup l [] h (fun x _ => List.not_mem_nil x)

theorem dedupFirst_length_lt {α : Type} [DecidableEq α] (l : List α)
    (h : ¬ l.Nodup) : (dedupFirst l).length < l.length := by
  have hsub := dedupFirstAux_sublist l ([] : List α)
  rcases Nat.lt_or_ge (dedupFirst l).length l.length with hlt | hge
  · exact hlt
  · exfalso
    have heq : dedupFirst l = l :=
      hsub.eq_of_length (Nat.le_antisymm hsub.length_le hge)
    exact h (heq ▸ dedupFirstAux_nodup l [])

/-! ### Lemmas about the routes mapping -/

theorem lookupRoute_insertRoute (m : List (Text × RouteResult)) (k q : Text)
    (v : RouteResult) :
    lookupRoute (insertRoute m k v) q =
      if k = q then some v else lookupRoute m q := by
  induction m with
  | nil =>
      unfold insertRoute lookupRoute
      by_cases hkq : k = q
      · rw [if_pos hkq, if_pos hkq]
      · rw [if_neg hkq, if_neg hkq]
        rfl
  | cons p rest ih =>
      obtain ⟨k2, v2⟩ := p
      unfold insertRoute
      by_cases h2 : k2 = k
      · rw [if_pos h2]
        unfold lookupRoute
        by_cases hkq : k = q
        · rw [if_pos hkq, if_pos hkq]
        · rw [if_neg hkq, if_neg hkq, if_neg (fun h3 => hkq (h2 ▸ h3))]
      · rw [if_neg h2]
        unfold lookupRoute
        by_cases h2q : k2 = q
        · subst h2q
          rw [if_pos rfl, if_pos rfl, if_neg (fun hkq => h2 hkq.symm)]
        · rw [if_neg h2q, if_neg h2q, ih]

theorem keys_insertRoute (m : List (Text × RouteResult)) (k : Text)
    (v : RouteResult) :
    (insertRoute m k v).map Prod.fst =
      if k ∈ m.map Prod.fst then m.map Prod.fst else m.map Prod.fst ++ [k] := by
  induction m with
  | nil =>
      rw [show insertRoute [] k v = [(k, v)] from rfl]
      rw [if_neg (by simp)]
      rfl
  | cons p rest ih =>
      obtain ⟨k2, v2⟩ := p
      unfold insertRoute
      by_cases h2 : k2 = k
      · rw [if_pos h2]
        have hmem : k ∈ ((k2, v2) :: rest).map Prod.fst := by
          rw [List.map_cons]
          exact List.mem_cons.mpr (Or.inl h2.symm)
        rw [if_pos hmem, List.map_cons, List.map_cons, h2]

      · rw [if_neg h2]
        have hne : ¬ (k = k2) := fun h3 => h2 h3.symm
        simp only [List.map_cons, ih, List.mem_cons]
        by_cases hk : k ∈ rest.map Prod.fst
        · rw [if_pos hk, if_pos (Or.inr hk)]
        · rw [if_neg hk, if_neg (by simp [hne, hk])]
          simp

theorem lastNamed_cons_eq (r : RouteConfig) (rs : List RouteConfig) (n : Text) :
    lastNamed (r :: rs) n =
      match lastNamed rs n with
      | some r2 => some r2
      | none => if r.name = n then some r else none := rfl

theorem lookupRoute_foldl (env : RouteConfig → FetchOutcome) :
    ∀ (routes : List RouteConfig) (m : List (Text × RouteResult)) (q : Text),
      lookupRoute
          (routes.foldl
            (fun acc route => insertRoute acc route.name (mkRouteResult env route)) m)
          q =
        (lastNamed routes q).elim (lookupRoute m q)
          (fun r => some (mkRouteResult env r)) := by
  intro routes
  induction routes with
  | nil => intro m q; rfl
  | cons r rs ih =>
      intro m q
      rw [List.foldl_cons, ih, lastNamed_cons_eq]
      cases hlast : lastNamed rs q with
      | some r2 => rfl
      | none =>
          rw [lookupRoute_insertRoute]
          by_cases hrq : r.name = q
          · rw [if_pos hrq, if_pos hrq]
            rfl
          · rw [if_neg hrq, if_neg hrq]

theorem keys_foldl (env : RouteConfig → FetchOutcome) :
    ∀ (routes : List RouteConfig) (m : List (Text × RouteResult)),
      (routes.foldl
          (fun acc route => insertRoute acc route.name (mkRouteResult env route)) m).map
          Prod.fst =
        m.map Prod.fst ++
          dedupFirstAux (m.map Prod.fst) (routes.map RouteConfig.name) := by
  intro routes
  induction routes with
  | nil => intro m; simp [dedupFirstAux_nil_eq]
  | cons r rs ih =>
      intro m
      rw [List.foldl_cons, ih, List.map_cons, dedupFirstAux_cons_eq, keys_insertRoute]
      by_cases hk : r.name ∈ m.map Prod.fst
      · rw [if_pos hk, if_pos hk]
      · rw [if_neg hk, if_neg hk]
        rw [List.append_assoc, List.singleton_append]
        congr 1
        congr 1
        refine dedupFirstAux_congr _ _ _ ?_
        intro a
        simp only [List.mem_append, List.mem_cons, List.mem_singleton]
        tauto

theorem lastNamed_spec :
    ∀ (routes : List RouteConfig) (n : Text) (r : RouteConfig),
      lastNamed routes n = some r → r ∈ routes ∧ r.name = n := by
  intro routes
  induction routes with
  | nil => intro n r h; exact Option.noConfusion h
  | cons r2 rs ih =>
      intro n r h
      rw [lastNamed_cons_eq] at h
      cases hlast : lastNamed rs n with
      | some r3 =>
          rw [hlast] at h
          simp only [Option.some.injEq] at h
          obtain ⟨hmem, hname⟩ := ih n r3 hlast
          exact h ▸ ⟨List.mem_cons_of_mem _ hmem, hname⟩
      | none =>
          rw [hlast] at h
          simp only [] at h
          by_cases h2 : r2.name = n
          · rw [if_pos h2] at h
            simp only [Option.some.injEq] at h
            subst h
            exact ⟨List.mem_cons_self _ _, h2⟩
          · rw [if_neg h2] at h
            exact Option.noConfusion h

theorem lastNamed_of_nodup :
    ∀ (routes : List RouteConfig), (routes.map RouteConfig.name).Nodup →
      ∀ r ∈ routes, lastNamed routes r.name = some r := by
  intro routes
  induction routes with
  | nil => intro _ r hr; exact absurd hr (List.not_mem_nil r)
  | cons r2 rs ih =>
      intro hnd r hr
      have hndc : (r2.name :: rs.map RouteConfig.name).Nodup := by
        simpa using hnd
      have hnd2 := List.nodup_cons.mp hndc
      rw [lastNamed_cons_eq]
      rcases List.mem_cons.mp hr with rfl | hr2
      · cases hlast : lastNamed rs r.name with
        | some r3 =>
            exfalso
            obtain ⟨hmem, hname⟩ := lastNamed_spec rs r.name r3 hlast
            exact hnd2.1 (hname ▸ List.mem_map_of_mem RouteConfig.name hmem)
        | none => simp
      · rw [ih hnd2.2 r hr2]

/-! ### Claim C1 -/

/-- C1, counterexample: the extraction emits the matched substring
"7:05" unchanged, not zero-padded to "07:05"; the resulting TimePair
field does not match the two-digit normalized shape. -/
theorem c1_counterexample :
    containerTrips [txt "dep 7:05", txt "arr 8:45"] =
      [{ departure := txt "7:05", arrival := txt "8:45" }]
    ∧ isNormalizedTime (txt "7:05") = false := by
  constructor
  · rfl
  · rfl

/-- C1 (amended): every extracted time token is emitted exactly as
matched — a substring of the span's text, with no zero-padding — and
matches the raw pattern [0-2]?[0-9]:[0-5][0-9]; hence both fields of
every TimePair produced from a container have that raw shape (a one- or
two-digit hour). -/
theorem c1_tokens_raw_unpadded :
    (∀ (spans : Container) (t : Text), t ∈ span_times spans →
        isRawTime t = true ∧ ∃ s ∈ spans, ∃ pre suf, s = pre ++ t ++ suf)
    ∧ (∀ (container : Container) (p : TimePair), p ∈ containerTrips container →
        isRawTime p.departure = true ∧ isRawTime p.arrival = true) := by
  have htok : ∀ (spans : Container) (t : Text), t ∈ span_times spans →
      isRawTime t = true ∧ ∃ s ∈ spans, ∃ pre suf, s = pre ++ t ++ suf := by
    intro spans t ht
    unfold span_times at ht
    obtain ⟨s, hs, hsearch⟩ := List.mem_filterMap.mp ht
    unfold time_pattern_search at hsearch
    obtain ⟨hshape, pre, suf, hps⟩ := searchFrom_eq_some hsearch
    exact ⟨hshape, s, hs, pre, suf, hps⟩
  refine ⟨htok, ?_⟩
  intro container p hp
  unfold containerTrips at hp
  cases hst : span_times container with
  | nil => rw [hst] at hp; simp at hp
  | cons d rest =>
      cases rest with
      | nil => rw [hst] at hp; simp at hp
      | cons a rest2 =>
          rw [hst] at hp
          simp only [List.mem_singleton] at hp
          subst hp
          constructor
          · exact (htok container d (by rw [hst]; exact List.mem_cons_self _ _)).1
          · refine (htok container a ?_).1
            rw [hst]
            exact List.mem_cons_of_mem _ (List.mem_cons_self _ _)

/-- C1 witness: instantiating the amended claim on the concrete span
"dep 7:05" and token "7:05". -/
theorem c1_tokens_raw_unpadded_witness :
    isRawTime (txt "7:05") = true ∧
      ∃ s ∈ [txt "dep 7:05"], ∃ pre suf, s = pre ++ txt "7:05" ++ suf :=
  c1_tokens_raw_unpadded.1 [txt "dep 7:05"] (txt "7:05") (by decide)

/-! ### Claim C2 -/

/-- C2, counterexample: the span text "7:05 8:45" holds two well-formed
time substrings at disjoint positions (anchored matches at indices 0
and 5), yet extraction over that single span returns one token, and
that token is not normalized. -/
theorem c2_counterexample :
    timeMatchAt (txt "7:05 8:45") 0 = some (txt "7:05")
    ∧ timeMatchAt (txt "7:05 8:45") 5 = some (txt "8:45")
    ∧ span_times [txt "7:05 8:45"] = [txt "7:05"]
    ∧ (span_times [txt "7:05 8:45"]).length = 1
    ∧ isNormalizedTime (txt "7:05") = false := by
  refine ⟨?_, ?_, ?_, ?_, ?_⟩ <;> rfl

/-- C2 (amended): extraction emits at most one token per span — the
leftmost match of that span's text, exactly as matched and not
normalized — in span order: the token list is the per-span search
result over the spans whose text contains a match, and every successful
search result is the match at the least anchoring position. -/
theorem c2_per_span_leftmost :
    (∀ spans : Container,
        span_times spans =
          (spans.filter (fun s => (time_pattern_search s).isSome)).map
            (fun s => (time_pattern_search s).getD []))
    ∧ (∀ (s t : Text), time_pattern_search s = some t →
        ∃ i, timeMatchAt s i = some t ∧ ∀ j, j < i → timeMatchAt s j = none) := by
  constructor
  · intro spans
    induction spans with
    | nil => rfl
    | cons s rest ih =>
        unfold span_times at ih ⊢
        cases hs : time_pattern_search s with
        | some t => simp [List.filterMap_cons, List.filter_cons, hs, ih]
        | none => simp [List.filterMap_cons, List.filter_cons, hs, ih]
  · intro s t h
    unfold time_pattern_search at h
    exact searchFrom_leftmost h

/-- C2 witness: instantiating the amended claim's leftmostness on the
concrete text " 7:05", whose match is anchored at position 1. -/
theorem c2_per_span_leftmost_witness :
    ∃ i, timeMatchAt (txt " 7:05") i = some (txt "7:05")
      ∧ ∀ j, j < i → timeMatchAt (txt " 7:05") j = none :=
  c2_per_span_leftmost.2 (txt " 7:05") (txt "7:05") (by rfl)

/-! ### Claim C3 -/

/-- C3: a container whose spans yield at least two time tokens
contributes exactly one pair — departure the first token, arrival the
second, any further tokens ignored — and a container with fewer than
two tokens contributes nothing. -/
theorem c3_trip_pairer (container : Container) :
    (∀ d a rest, span_times container = d :: a :: rest →
        containerTrips container = [{ departure := d, arrival := a }])
    ∧ ((span_times container).length < 2 → containerTrips container = []) := by
  constructor
  · intro d a rest h
    unfold containerTrips
    rw [h]
  · intro hlen
    unfold containerTrips
    cases hst : span_times container with
    | nil => rfl
    | cons d rest =>
        cases rest with
        | nil => rfl
        | cons a rest2 =>
            rw [hst] at hlen
            simp at hlen
            omega

/-- C3 witness: a container with three matching spans yields exactly
the pair of the first two tokens; the third token "9:10" is ignored. -/
theorem c3_trip_pairer_witness :
    containerTrips [txt "dep 7:05", txt "arr 8:45", txt "9:10"] =
      [{ departure := txt "7:05", arrival := txt "8:45" }] :=
  (c3_trip_pairer [txt "dep 7:05", txt "arr 8:45", txt "9:10"]).1
    (txt "7:05") (txt "8:45") [txt "9:10"] (by rfl)

/-! ### Claims C4 and C5 -/

/-- C4: the deduplication loop returns the subsequence of exactly the
first occurrences of each distinct pair, in order: it equals the
spec-side firstOccurs description, is a sublist of its input, has no
duplicates, and keeps exactly the values of the input. -/
theorem c4_dedup_first_occurrences (l : List TimePair) :
    unique_timetable l = firstOccurs l
    ∧ List.Sublist (unique_timetable l) l
    ∧ (unique_timetable l).Nodup
    ∧ (∀ p : TimePair, p ∈ unique_timetable l ↔ p ∈ l) := by
  refine ⟨dedupFirst_eq_firstOccurs l, dedupFirstAux_sublist l [],
    dedupFirstAux_nodup l [], ?_⟩
  intro p
  rw [show unique_timetable l = dedupFirstAux [] l from rfl, mem_dedupFirstAux]
  simp

/-- C5: deduplication is idempotent — deduplicating an
already-deduplicated timetable returns it unchanged. -/
theorem c5_dedup_idempotent (l : List TimePair) :
    unique_timetable (unique_timetable l) = unique_timetable l :=
  dedupFirst_of_nodup _ (dedupFirstAux_nodup l [])

/-! ### Claim C6 -/

/-- C6: per-route failure is isolated.  With distinct route names, if
one route's acquisition raises an exception, the snapshot still carries
an entry for that route with an empty timetable, and every other
route's entry is exactly what it would have been had the failure not
occurred; no exception reaches the orchestrator (scrape_route is a
total function into timetables). -/
theorem c6_route_isolation (routes : List RouteConfig)
    (env env2 : RouteConfig → FetchOutcome) (r : RouteConfig)
    (hr : r ∈ routes) (hnodup : (routes.map RouteConfig.name).Nodup)
    (herr : ∃ e, env2 r = FetchOutcome.raised e)
    (hagree : ∀ r2 ∈ routes, r2 ≠ r → env2 r2 = env r2) :
    lookupRoute (scrape_all_routes routes env2) r.name =
      some { departure_station := r.departure_station,
             arrival_station := r.arrival_station, timetable := [] }
    ∧ ∀ r2 ∈ routes, r2 ≠ r →
        lookupRoute (scrape_all_routes routes env2) r2.name =
          lookupRoute (scrape_all_routes routes env) r2.name := by
  constructor
  · unfold scrape_all_routes
    rw [lookupRoute_foldl env2 routes [] r.name,
      lastNamed_of_nodup routes hnodup r hr]
    simp only [Option.elim_some]
    obtain ⟨e, he⟩ := herr
    unfold mkRouteResult
    rw [he]
    rfl
  · intro r2 hr2 hne
    unfold scrape_all_routes
    rw [lookupRoute_foldl env2 routes [] r2.name,
      lookupRoute_foldl env routes [] r2.name,
      lastNamed_of_nodup routes hnodup r2 hr2]
    simp only [Option.elim_some]
    unfold mkRouteResult
    rw [hagree r2 hr2 hne]

/-- C6 witness: three concrete routes; routeB's acquisition raises a
fetch error, routeB's entry is present and empty, and routeA's entry
agrees with the failure-free run. -/
theorem c6_route_isolation_witness :
    lookupRoute (scrape_all_routes threeRoutes envFailB) routeB.name =
      some { departure_station := routeB.departure_station,
             arrival_station := routeB.arrival_station, timetable := [] }
    ∧ lookupRoute (scrape_all_routes threeRoutes envFailB) routeA.name =
        lookupRoute (scrape_all_routes threeRoutes envOk) routeA.name := by
  have h := c6_route_isolation threeRoutes envOk envFailB routeB (by decide)
    (by decide) ⟨ScrapeError.fetchError, by decide⟩ (by decide)
  exact ⟨h.1, h.2 routeA (by decide) (by decide)⟩

/-! ### Claim C7 -/

/-- C7: when the awaited selector never appears within the bounded
wait, acquisition still returns the markup currently present, and when
container selection over that markup yields zero containers the route
result is the empty timetable — a value, not an exception. -/
theorem c7_timeout_degrade (route : RouteConfig) (st : RenderState)
    (hto : st.selectorAppeared = false)
    (hzero : selectFragments st.pageSource route.trip_container = []) :
    acquireMarkup st = st.pageSource
    ∧ scrape_route route (FetchOutcome.loaded st) = [] := by
  have hacq : acquireMarkup st = st.pageSource := by
    unfold acquireMarkup waitForContainers
    rw [hto]
    rfl
  refine ⟨hacq, ?_⟩
  show unique_timetable
      ((selectFragments (acquireMarkup st) route.trip_container).flatMap
        containerTrips) = []
  rw [hacq, hzero]
  rfl

/-- C7 witness: a concrete render state whose wait timed out and whose
markup has no fragment matching routeA's selector. -/
theorem c7_timeout_degrade_witness :
    acquireMarkup timedOutState = timedOutState.pageSource
    ∧ scrape_route routeA (FetchOutcome.loaded timedOutState) = [] :=
  c7_timeout_degrade routeA timedOutState (by rfl) (by decide)

/-! ### Claim C8 -/

/-- C8: the time pattern accepts any hour with leading digit 0-2
followed by any digit — hours up to 29 — paired with minutes 00-59; no
upper bound of 23 is enforced, and concretely a text containing
"25:30" yields that token. -/
theorem c8_permissive_hours :
    (∀ c1 c2 c3 c4 : Char, isHourLead c1 = true → isDigitC c2 = true →
        isMinLead c3 = true → isDigitC c4 = true →
        time_pattern_search [c1, c2, ':', c3, c4] = some [c1, c2, ':', c3, c4])
    ∧ span_times [txt "dep 25:30"] = [txt "25:30"] := by
  constructor
  · intro c1 c2 c3 c4 h1 h2 h3 h4
    have hcond : (isHourLead c1 && isDigitC c2 && (':' == ':') && isMinLead c3 &&
        isDigitC c4 && boundaryAfter []) = true := by
      simp [h1, h2, h3, h4, boundaryAfter]
    have hm : matchTwo [c1, c2, ':', c3, c4] = some [c1, c2, ':', c3, c4] := by
      show (if (isHourLead c1 && isDigitC c2 && (':' == ':') && isMinLead c3 &&
          isDigitC c4 && boundaryAfter []) = true
        then some [c1, c2, ':', c3, c4] else none) = some [c1, c2, ':', c3, c4]
      rw [if_pos hcond]
    have hma : matchAt none [c1, c2, ':', c3, c4] = some [c1, c2, ':', c3, c4] := by
      unfold matchAt
      rw [if_pos (show isBoundaryBefore none = true from rfl), hm]
    show searchFrom none [c1, c2, ':', c3, c4] = some [c1, c2, ':', c3, c4]
    unfold searchFrom
    rw [hma]
  · rfl

/-- C8 witness: the pattern accepts the out-of-calendar hour 25: the
standalone text "25:30" is matched in full. -/
theorem c8_permissive_hours_witness :
    time_pattern_search [ '2', '5', ':', '3', '0'] =
      some [ '2', '5', ':', '3', '0'] :=
  c8_permissive_hours.1 '2' '5' '3' '0' (by decide) (by decide) (by decide)
    (by decide)

/-! ### Claim C9 -/

/-- C9, counterexample: a present-but-malformed configuration file is
not recovered — json.load's JSONDecodeError is not caught by the
except FileNotFoundError handler and propagates out of load_config. -/
theorem c9_counterexample :
    load_config ConfigFile.invalid = Except.error PyErr.jsonDecode := rfl

/-- C9 (amended): only the missing-file case is recovered: an absent
configuration file makes load_config write the synthesized defaults and
return them; a malformed file propagates the parse error; a valid file
is returned as parsed with nothing written. -/
theorem c9_only_missing_recovered :
    load_config ConfigFile.missing = Except.ok (default_config, true)
    ∧ load_config ConfigFile.invalid = Except.error PyErr.jsonDecode
    ∧ ∀ c : Config, load_config (ConfigFile.valid c) = Except.ok (c, false) := by
  refine ⟨rfl, rfl, ?_⟩
  intro c
  rfl

/-! ### Claim C10 -/

/-- C10: the snapshot's per-route results are keyed by route name: a
lookup returns the result of the last configured route bearing that
name (so a later route overwrites an earlier one of the same name);
with a duplicated name the snapshot has strictly fewer entries than
there are routes, and with all names distinct it has exactly one entry
per route. -/
theorem c10_name_keyed_snapshot (routes : List RouteConfig)
    (env : RouteConfig → FetchOutcome) :
    (∀ n : Text, lookupRoute (scrape_all_routes routes env) n =
        (lastNamed routes n).elim none (fun r => some (mkRouteResult env r)))
    ∧ (¬ (routes.map RouteConfig.name).Nodup →
        (scrape_all_routes routes env).length < routes.length)
    ∧ ((routes.map RouteConfig.name).Nodup →
        (scrape_all_routes routes env).length = routes.length) := by
  have hkeys : (scrape_all_routes routes env).map Prod.fst =
      dedupFirst (routes.map RouteConfig.name) := by
    unfold scrape_all_routes
    rw [keys_foldl env routes []]
    rfl
  have hlen : (scrape_all_routes routes env).length =
      (dedupFirst (routes.map RouteConfig.name)).length := by
    rw [← hkeys, List.length_map]
  refine ⟨?_, ?_, ?_⟩
  · intro n
    unfold scrape_all_routes
    rw [lookupRoute_foldl env routes [] n]
    rfl
  · intro hdup
    rw [hlen]
    calc (dedupFirst (routes.map RouteConfig.name)).length
        < (routes.map RouteConfig.name).length :=
          dedupFirst_length_lt _ hdup
      _ = routes.length := List.length_map _ _
  · intro hnd
    rw [hlen, dedupFirst_of_nodup _ hnd, List.length_map]

/-- C10 witness: two configured routes share the name R1; the snapshot
has strictly fewer entries than routes. -/
theorem c10_name_keyed_snapshot_witness :
    (scrape_all_routes dupRoutes envOk).length < dupRoutes.length :=
  (c10_name_keyed_snapshot dupRoutes envOk).2.1 (by decide)

end RailScraper
